import Mathlib

/-!
Verification development for the easy-invoice-ai repository
(`app.py`, the Streamlit web front-end, and `invoice_extractor.py`, the
CLI front-end).  Python values reaching the flattening / cleaning /
persistence code are modelled by the inductive type `JVal`; Python `None`
(and JSON null) is `JVal.null`.  File contents are modelled explicitly,
library primitives (`str.strip`, `str.replace`, `json.loads`, `csv`
appends, `pathlib` suffix handling) are given executable models of their
documented semantics.
-/

set_option maxRecDepth 4000

namespace Invoice

/-- Model of the Python values that flow through the pipeline: the result
of `json.loads` plus the values the front-ends build themselves.
`null` models both JSON null and Python `None`; `num` models Python
int/float numbers (no claim distinguishes the two); `obj` is an
insertion-ordered Python dict as an association list with unique keys
left implicit. -/
inductive JVal where
  | null : JVal
  | bool : Bool → JVal
  | num : Rat → JVal
  | str : String → JVal
  | arr : List JVal → JVal
  | obj : List (String × JVal) → JVal

/-- First-match association-list lookup: `d.get(k)` returning `none`
when the key is absent (Python dicts have unique keys, so first match is
the match). -/
def lookupKey : List (String × JVal) → String → Option JVal
  | [], _ => none
  | (k', v) :: fs, k => if k' = k then some v else lookupKey fs k

/-- Python `d[k] = v` on an insertion-ordered dict: overwrite in place if
the key exists, else append at the end. -/
def setKey : List (String × JVal) → String → JVal → List (String × JVal)
  | [], k, v => [(k, v)]
  | (k', v') :: fs, k, v =>
    if k' = k then (k, v) :: fs else (k', v') :: setKey fs k v

/-- Python truthiness for the values above: `None`, `False`, zero, and
empty containers/strings are falsy. -/
def isFalsy : JVal → Bool
  | .null => true
  | .bool b => !b
  | .num q => q = 0
  | .str s => s.isEmpty
  | .arr xs => xs.isEmpty
  | .obj fs => fs.isEmpty

/-- Python `x or y` (restricted to returning `y` when `x` is falsy). -/
def pyOr (x y : JVal) : JVal := if isFalsy x then y else x

/-- Python `d.get(k, dflt)`: the stored value when the key is present
(even when that value is `None`), else the default. -/
def pyGetOr (fs : List (String × JVal)) (k : String) (dflt : JVal) : JVal :=
  (lookupKey fs k).getD dflt

/-- View a value as a dict; `none` models the `AttributeError` a
`.get` call on a non-dict raises. -/
def asObj : JVal → Option (List (String × JVal))
  | .obj fs => some fs
  | _ => none

/-- Python `len(...)`: defined on sequences and mappings, raises
(`none`) on numbers, booleans and `None`. -/
def pyLen : JVal → Option Nat
  | .arr xs => some xs.length
  | .str s => some s.length
  | .obj fs => some fs.length
  | _ => none

/-! ### `safe_get` (app.py lines 121–131) -/

/-- `safe_get(data, *keys, default="")` from `app.py`: walk the key path;
whenever the current value is not a dict, or a lookup yields `None`
(missing key or explicit null), return the caller-supplied default; a
`None` final value also yields the default.  Total, hence never
raises. -/
def safeGet (v : JVal) (ks : List String) (dflt : JVal) : JVal :=
  match ks with
  | [] =>
    match v with
    | .null => dflt
    | _ => v
  | k :: ks' =>
    match v with
    | .obj fs =>
      match lookupKey fs k with
      | none => dflt
      | some .null => dflt
      | some w => safeGet w ks' dflt
    | _ => dflt

/-! ### `clean_value` (app.py lines 134–144)

The string pipeline is modelled on `List Char`:
strip surrounding whitespace, replace newline and carriage-return
characters by spaces, then repeatedly replace two consecutive spaces by
one until no two consecutive spaces remain. -/

/-- Python `str.isspace` / default `str.strip` whitespace, restricted to
the ASCII whitespace characters. -/
def pyIsSpace (c : Char) : Bool :=
  c = ' ' || c = '\t' || c = '\n' || c = '\x0b' || c = '\x0c' || c = '\r'

/-- Remove trailing whitespace. -/
def dropTrailing (l : List Char) : List Char :=
  (l.reverse.dropWhile pyIsSpace).reverse

/-- Python `str.strip()`: remove leading and trailing whitespace. -/
def pyStripList (l : List Char) : List Char :=
  dropTrailing (l.dropWhile pyIsSpace)

/-- `value.replace("\n", " ")` as a character map. -/
def replNL (l : List Char) : List Char :=
  l.map fun c => if c = '\n' then ' ' else c

/-- `value.replace("\r", " ")` as a character map. -/
def replCR (l : List Char) : List Char :=
  l.map fun c => if c = '\r' then ' ' else c

/-- One pass of `value.replace("  ", " ")`: scan left to right,
non-overlapping. -/
def collapseStep : List Char → List Char
  | [] => []
  | [c] => [c]
  | c1 :: c2 :: rest =>
    if c1 = ' ' ∧ c2 = ' ' then ' ' :: collapseStep rest
    else c1 :: collapseStep (c2 :: rest)

/-- The loop guard: `"  " in value`. -/
def hasDouble : List Char → Bool
  | c1 :: c2 :: rest => (c1 = ' ' && c2 = ' ') || hasDouble (c2 :: rest)
  | _ => false

/-- The `while "  " in value` loop, with explicit fuel (each iteration
strictly shortens the list, so `l.length` steps always reach the
fixpoint). -/
def collapseFuel : Nat → List Char → List Char
  | 0, l => l
  | n + 1, l => if hasDouble l then collapseFuel n (collapseStep l) else l

/-- Collapse runs of spaces until no two consecutive spaces remain. -/
def collapseSpaces (l : List Char) : List Char :=
  collapseFuel l.length l

/-- The character-level body of `clean_value` for string input. -/
def cleanList (l : List Char) : List Char :=
  collapseSpaces (replCR (replNL (pyStripList l)))

/-- `clean_value` on a string. -/
def cleanStr (s : String) : String := ⟨cleanList s.data⟩

/-- A minimal model of Python `str(x)` for the container values that can
reach the `str(value)` call inside `clean_value`; no claim evaluates
this branch, scalar branches never use it. -/
def pyStrOfContainer : JVal → String
  | .arr _ => "<list>"
  | .obj _ => "<dict>"
  | _ => ""

/-- `clean_value(value)` from `app.py`: `None` becomes the empty string,
ints/floats (including bools, which satisfy `isinstance(value, int)`)
pass through unmodified, strings go through the cleaning pipeline, and
any other value is stringified then cleaned. -/
def clean : JVal → JVal
  | .null => .str ""
  | .num q => .num q
  | .bool b => .bool b
  | .str s => .str (cleanStr s)
  | v => .str (cleanStr (pyStrOfContainer v))

/-! ### The flattened consolidated row -/

/-- The 12 fixed fields of the consolidated CSV row, in the order both
front-ends build them. -/
structure Row where
  data_extracao : JVal
  arquivo_origem : JVal
  tipo_arquivo : JVal
  razao_social : JVal
  cnpj : JVal
  endereco : JVal
  data_emissao : JVal
  numero_nota : JVal
  qtd_itens : Nat
  valor_total_nota : JVal
  icms : JVal
  iss : JVal

/-- The row computed by `append_to_csv` in `invoice_extractor.py`
(lines 269–298): container dicts are fetched with `.get(k, {}) or {}`
(except `_metadata`, fetched without the `or {}` guard), leaf values
with plain `.get(k, "")`, and no cleaning pass is applied.  `none`
models a raised exception (`.get` on a non-dict, `len` on a
number/bool). -/
def rowCLIFields (ds : List (String × JVal)) : Option Row :=
  (asObj (pyOr (pyGetOr ds "emitente" (.obj [])) (.obj []))).bind fun em =>
  (asObj (pyOr (pyGetOr ds "impostos" (.obj [])) (.obj []))).bind fun im =>
  (asObj (pyGetOr ds "_metadata" (.obj []))).bind fun md =>
  (pyLen (pyOr (pyGetOr ds "itens" (.arr [])) (.arr []))).bind fun qtd =>
  some
    { data_extracao := pyGetOr md "data_extracao" (.str "")
      arquivo_origem := pyGetOr md "arquivo_origem" (.str "")
      tipo_arquivo := pyGetOr md "tipo_arquivo" (.str "")
      razao_social := pyGetOr em "razao_social" (.str "")
      cnpj := pyGetOr em "cnpj" (.str "")
      endereco := pyGetOr em "endereco" (.str "")
      data_emissao := pyGetOr ds "data_emissao" (.str "")
      numero_nota := pyGetOr ds "numero_nota" (.str "")
      qtd_itens := qtd
      valor_total_nota := pyGetOr ds "valor_total_nota" (.str "")
      icms := pyGetOr im "icms" (.str "")
      iss := pyGetOr im "iss" (.str "") }

def rowCLI (d : JVal) : Option Row :=
  (asObj d).bind rowCLIFields

/-- The row computed by `append_to_csv` in `app.py` (lines 201–228):
every field goes through `clean_value(safe_get(...))`; `_metadata` is
fetched with `.get("_metadata", {}) or {}`, issuer and tax fields are
looked up with two-key `safe_get` paths from the record itself. -/
def rowWebFields (ds : List (String × JVal)) : Option Row :=
  let md := pyOr (pyGetOr ds "_metadata" (.obj [])) (.obj [])
  (pyLen (pyOr (pyGetOr ds "itens" (.arr [])) (.arr []))).bind fun qtd =>
  some
    { data_extracao := clean (safeGet md ["data_extracao"] (.str ""))
      arquivo_origem := clean (safeGet md ["arquivo_origem"] (.str ""))
      tipo_arquivo := clean (safeGet md ["tipo_arquivo"] (.str ""))
      razao_social := clean (safeGet (.obj ds) ["emitente", "razao_social"] (.str ""))
      cnpj := clean (safeGet (.obj ds) ["emitente", "cnpj"] (.str ""))
      endereco := clean (safeGet (.obj ds) ["emitente", "endereco"] (.str ""))
      data_emissao := clean (safeGet (.obj ds) ["data_emissao"] (.str ""))
      numero_nota := clean (safeGet (.obj ds) ["numero_nota"] (.str ""))
      qtd_itens := qtd
      valor_total_nota := clean (safeGet (.obj ds) ["valor_total_nota"] (.str ""))
      icms := clean (safeGet (.obj ds) ["impostos", "icms"] (.str ""))
      iss := clean (safeGet (.obj ds) ["impostos", "iss"] (.str "")) }

def rowWeb (d : JVal) : Option Row :=
  (asObj d).bind rowWebFields

/-! ### Concrete input record of the end-to-end scenario -/

/-- The input record of the spec's end-to-end scenario: issuer ACME with
the given tax id and address, one line item, grand total 10.0, icms 1.0
and iss null. -/
def exC1 : JVal :=
  .obj [("emitente", .obj [("razao_social", .str "ACME"), ("cnpj", .str "00.000.000/0001-00"),
          ("endereco", .str "Rua X")]),
        ("data_emissao", .str "01/01/2024"), ("numero_nota", .str "123"),
        ("itens", .arr [.obj [("descricao", .str "Item A"), ("quantidade", .num 2),
          ("valor_unitario", .num 5), ("valor_total", .num 10)]]),
        ("valor_total_nota", .num 10),
        ("impostos", .obj [("icms", .num 1), ("iss", .null)])]

/-- C1: for the end-to-end scenario input record, the ConsolidatedRow
computed by the flattening step of `append_to_csv` in `app.py` has
`qtd_itens = 1`, `cnpj = "00.000.000/0001-00"`, and `iss = ""` (the null
tax value cleaned to the empty string). -/
theorem c1_end_to_end_row :
    (rowWeb exC1).map Row.qtd_itens = some 1 ∧
    (rowWeb exC1).map Row.cnpj = some (.str "00.000.000/0001-00") ∧
    (rowWeb exC1).map Row.iss = some (.str "") :=
  ⟨rfl, rfl, rfl⟩

/-! ### C2: the null-safe accessor -/

/-- The condition under which `safe_get` hits one of its default-return
branches: some step of the walk finds the current value not to be a
mapping, or the key lookup yields an absent or explicitly null value. -/
def pathBroken : JVal → List String → Bool
  | _, [] => false
  | .obj fs, k :: ks =>
    match lookupKey fs k with
    | none => true
    | some .null => true
    | some w => pathBroken w ks
  | _, _ :: _ => true

/-- C2: (half of the claim's universal statement) whenever any
intermediate value along the path is absent, not a mapping, or
explicitly null, `safe_get` returns the caller-supplied default, for
every parsed structure, key path and default.  `safeGet` is a total
function, so the accessor never raises. -/
theorem c2_safe_get_default (v : JVal) (ks : List String) (dflt : JVal)
    (h : pathBroken v ks = true) : safeGet v ks dflt = dflt := by
  induction ks generalizing v with
  | nil => simp [pathBroken] at h
  | cons k ks ih =>
    cases v with
    | obj fs =>
      cases hl : lookupKey fs k with
      | none => simp [safeGet, hl]
      | some w =>
        cases w with
        | null => simp [safeGet, hl]
        | bool b =>
          simp only [safeGet, pathBroken, hl] at h ⊢
          exact ih _ h
        | num q =>
          simp only [safeGet, pathBroken, hl] at h ⊢
          exact ih _ h
        | str s =>
          simp only [safeGet, pathBroken, hl] at h ⊢
          exact ih _ h
        | arr xs =>
          simp only [safeGet, pathBroken, hl] at h ⊢
          exact ih _ h
        | obj gs =>
          simp only [safeGet, pathBroken, hl] at h ⊢
          exact ih _ h
    | null => rfl
    | bool b => rfl
    | num q => rfl
    | str s => rfl
    | arr xs => rfl

/-- C2 witness: the spec's concrete instance — looking up the path
emitente→cnpj in a record whose emitente is explicitly null, with
default the empty string, hits a broken path and returns the empty
string. -/
theorem c2_safe_get_default_witness :
    pathBroken (.obj [("emitente", .null)]) ["emitente", "cnpj"] = true ∧
    safeGet (.obj [("emitente", .null)]) ["emitente", "cnpj"] (.str "") = .str "" :=
  ⟨rfl, c2_safe_get_default _ _ _ rfl⟩

end Invoice

namespace Invoice

/-! ### C6: idempotence of the cleaning pass — auxiliary lemmas -/

theorem dropWhile_space_noop {l : List Char}
    (h : ∀ c ∈ l.head?, pyIsSpace c = false) :
    l.dropWhile pyIsSpace = l := by
  cases l with
  | nil => rfl
  | cons a l =>
    have ha : pyIsSpace a = false := h a rfl
    rw [List.dropWhile_cons, if_neg (by simp [ha])]

theorem head?_dropWhile_space (l : List Char) :
    ∀ c ∈ (l.dropWhile pyIsSpace).head?, pyIsSpace c = false := by
  induction l with
  | nil => simp
  | cons a l ih =>
    rw [List.dropWhile_cons]
    by_cases h : pyIsSpace a = true
    · simpa [h] using ih
    · simp only [Bool.not_eq_true] at h
      simp [h]

theorem dropTrailing_prefix_self (l : List Char) : dropTrailing l <+: l := by
  have h := @List.dropWhile_suffix Char l.reverse pyIsSpace
  have h2 := List.reverse_prefix.mpr h
  simpa [dropTrailing] using h2

theorem head?_eq_of_pref {l1 l2 : List Char} (h : l1 <+: l2) (hne : l1 ≠ []) :
    l2.head? = l1.head? := by
  obtain ⟨t, rfl⟩ := h
  cases l1 with
  | nil => exact absurd rfl hne
  | cons a l => simp

theorem stripped_head (l : List Char) :
    ∀ c ∈ (pyStripList l).head?, pyIsSpace c = false := by
  intro c hc
  unfold pyStripList at hc
  by_cases hnil : dropTrailing (l.dropWhile pyIsSpace) = []
  · rw [hnil] at hc; simp at hc
  · rw [← head?_eq_of_pref (dropTrailing_prefix_self _) hnil] at hc
    exact head?_dropWhile_space l c hc

theorem stripped_getLast (l : List Char) :
    ∀ c ∈ (pyStripList l).getLast?, pyIsSpace c = false := by
  intro c hc
  unfold pyStripList dropTrailing at hc
  rw [List.getLast?_reverse] at hc
  exact head?_dropWhile_space _ c hc

theorem pyStripList_noop {l : List Char}
    (h1 : ∀ c ∈ l.head?, pyIsSpace c = false)
    (h2 : ∀ c ∈ l.getLast?, pyIsSpace c = false) :
    pyStripList l = l := by
  unfold pyStripList dropTrailing
  rw [dropWhile_space_noop h1, dropWhile_space_noop (by rw [List.head?_reverse]; exact h2),
    List.reverse_reverse]

theorem collapseStep_sublist : ∀ l : List Char, List.Sublist (collapseStep l) l
  | [] => by simp [collapseStep]
  | [c] => by simp [collapseStep]
  | c1 :: c2 :: rest => by
    rw [collapseStep]
    split
    · next h =>
      rw [h.1, h.2]
      exact List.Sublist.cons₂ _ (List.Sublist.cons _ (collapseStep_sublist rest))
    · exact List.Sublist.cons₂ _ (collapseStep_sublist (c2 :: rest))

theorem collapseStep_length_lt : ∀ l : List Char, hasDouble l = true →
    (collapseStep l).length < l.length
  | [], h => by simp [hasDouble] at h
  | [c], h => by simp [hasDouble] at h
  | c1 :: c2 :: rest, h => by
    rw [collapseStep]
    split
    · have := (collapseStep_sublist rest).length_le
      simp only [List.length_cons]
      omega
    · next hc =>
      have hd : hasDouble (c2 :: rest) = true := by
        rw [hasDouble] at h
        rcases (Bool.or_eq_true _ _).mp h with h' | h'
        · simp only [Bool.and_eq_true, decide_eq_true_eq] at h'
          exact absurd h' hc
        · exact h'
      have := collapseStep_length_lt (c2 :: rest) hd
      simp only [List.length_cons] at this ⊢
      omega

theorem collapseStep_ne_nil : ∀ l : List Char, l ≠ [] → collapseStep l ≠ []
  | [c], _ => by simp [collapseStep]
  | c1 :: c2 :: rest, _ => by
    rw [collapseStep]
    split <;> simp

theorem collapseStep_head? : ∀ l : List Char, ∀ c, l.head? = some c → c ≠ ' ' →
    (collapseStep l).head? = some c
  | [c'], c, h, hsp => by simpa [collapseStep] using h
  | c1 :: c2 :: rest, c, h, hsp => by
    simp only [List.head?_cons, Option.some.injEq] at h
    rw [collapseStep, if_neg]
    · simp [h]
    · rintro ⟨h1, -⟩
      exact hsp (h ▸ h1)

theorem getLast?_cons_of_ne_nil {a : Char} {l : List Char} (h : l ≠ []) :
    (a :: l).getLast? = l.getLast? := by
  cases l with
  | nil => exact absurd rfl h
  | cons b t => exact List.getLast?_cons_cons

theorem collapseStep_getLast? : ∀ l : List Char, ∀ c, l.getLast? = some c →
    pyIsSpace c = false → (collapseStep l).getLast? = some c
  | [c'], c, h, hsp => by simpa [collapseStep] using h
  | c1 :: c2 :: rest, c, h, hsp => by
    cases hre : rest with
    | nil =>
      subst hre
      have hc2 : c2 = c := by
        simpa [List.getLast?_cons_cons] using h
      subst hc2
      rw [collapseStep, if_neg]
      · simp [collapseStep]
      · rintro ⟨-, h2⟩
        rw [h2] at hsp
        simp [pyIsSpace] at hsp
    | cons c3 rest' =>
      subst hre
      have hlast : (c2 :: c3 :: rest').getLast? = some c := by
        rw [List.getLast?_cons_cons] at h; exact h
      have hlast' : (c3 :: rest').getLast? = some c := by
        rw [List.getLast?_cons_cons] at hlast; exact hlast
      rw [collapseStep]
      split
      · have hne := collapseStep_ne_nil (c3 :: rest') (by simp)
        rw [getLast?_cons_of_ne_nil hne]
        exact collapseStep_getLast? (c3 :: rest') c hlast' hsp
      · have hne := collapseStep_ne_nil (c2 :: c3 :: rest') (by simp)
        rw [getLast?_cons_of_ne_nil hne]
        exact collapseStep_getLast? (c2 :: c3 :: rest') c hlast hsp

theorem collapseFuel_fix : ∀ n : Nat, ∀ l : List Char, l.length ≤ n →
    hasDouble (collapseFuel n l) = false
  | 0, l, h => by
    have : l = [] := List.length_eq_zero.mp (Nat.le_zero.mp h)
    subst this; rfl
  | n + 1, l, h => by
    rw [collapseFuel]
    by_cases hd : hasDouble l = true
    · rw [if_pos hd]
      exact collapseFuel_fix n (collapseStep l)
        (Nat.le_of_lt_succ (Nat.lt_of_lt_of_le (collapseStep_length_lt l hd) h))
    · simp only [Bool.not_eq_true] at hd
      simp [hd]

theorem collapseFuel_noop {l : List Char} (h : hasDouble l = false) :
    ∀ n, collapseFuel n l = l
  | 0 => rfl
  | n + 1 => by rw [collapseFuel, h]; simp

theorem collapseSpaces_noop {l : List Char} (h : hasDouble l = false) :
    collapseSpaces l = l := collapseFuel_noop h _

theorem collapseFuel_sublist : ∀ n : Nat, ∀ l : List Char,
    List.Sublist (collapseFuel n l) l
  | 0, l => by simp [collapseFuel]
  | n + 1, l => by
    rw [collapseFuel]
    split
    · exact (collapseFuel_sublist n (collapseStep l)).trans (collapseStep_sublist l)
    · simp

theorem collapseFuel_head? : ∀ n : Nat, ∀ l : List Char, ∀ c, l.head? = some c → c ≠ ' ' →
    (collapseFuel n l).head? = some c
  | 0, l, c, h, _ => h
  | n + 1, l, c, h, hsp => by
    rw [collapseFuel]
    split
    · exact collapseFuel_head? n _ c (collapseStep_head? l c h hsp) hsp
    · exact h

theorem collapseFuel_getLast? : ∀ n : Nat, ∀ l : List Char, ∀ c, l.getLast? = some c →
    pyIsSpace c = false → (collapseFuel n l).getLast? = some c
  | 0, l, c, h, _ => h
  | n + 1, l, c, h, hsp => by
    rw [collapseFuel]
    split
    · exact collapseFuel_getLast? n _ c (collapseStep_getLast? l c h hsp) hsp
    · exact h

theorem collapseSpaces_head {m : List Char} (hm : ∀ c ∈ m.head?, pyIsSpace c = false) :
    ∀ c ∈ (collapseSpaces m).head?, pyIsSpace c = false := by
  intro c hc
  cases hh : m.head? with
  | none =>
    have : m = [] := by cases m with | nil => rfl | cons a t => simp at hh
    subst this
    simp [collapseSpaces, collapseFuel] at hc
  | some a =>
    have ha : pyIsSpace a = false := hm a (by rw [hh]; rfl)
    have he : (collapseSpaces m).head? = some a :=
      collapseFuel_head? _ _ _ hh (by rintro rfl; simp [pyIsSpace] at ha)
    rw [he] at hc
    have : a = c := by simpa using hc
    subst this; exact ha

theorem collapseSpaces_getLast {m : List Char} (hm : ∀ c ∈ m.getLast?, pyIsSpace c = false) :
    ∀ c ∈ (collapseSpaces m).getLast?, pyIsSpace c = false := by
  intro c hc
  cases hh : m.getLast? with
  | none =>
    have : m = [] := by
      cases hmm : m with
      | nil => rfl
      | cons a t => rw [hmm] at hh; simp [List.getLast?_eq_none_iff] at hh
    subst this
    simp [collapseSpaces, collapseFuel] at hc
  | some a =>
    have ha : pyIsSpace a = false := hm a (by rw [hh]; rfl)
    have he : (collapseSpaces m).getLast? = some a := collapseFuel_getLast? _ _ _ hh ha
    rw [he] at hc
    have : a = c := by simpa using hc
    subst this; exact ha

/-- The character substitution performed by the two replace calls. -/
theorem replNL_replCR_eq_map (l : List Char) :
    replCR (replNL l) =
      l.map (fun c => if c = '\n' then ' ' else if c = '\r' then ' ' else c) := by
  rw [replNL, replCR, List.map_map]
  refine List.map_congr_left fun c _ => ?_
  by_cases h1 : c = '\n' <;> by_cases h2 : c = '\r' <;>
    simp_all [Function.comp]

theorem repl_head {u : List Char} (h : ∀ c ∈ u.head?, pyIsSpace c = false) :
    ∀ c ∈ (replCR (replNL u)).head?, pyIsSpace c = false := by
  intro c hc
  rw [replNL_replCR_eq_map, List.head?_map] at hc
  cases hu : u.head? with
  | none => rw [hu] at hc; simp at hc
  | some b =>
    rw [hu] at hc
    have hb := h b (by rw [hu]; rfl)
    have hnl : b ≠ '\n' ∧ b ≠ '\r' := by
      constructor <;> rintro rfl <;> simp [pyIsSpace] at hb
    simp only [Option.map_some', Option.mem_def, Option.some.injEq] at hc
    rw [← hc]
    simp [hnl.1, hnl.2, hb]

theorem repl_getLast {u : List Char} (h : ∀ c ∈ u.getLast?, pyIsSpace c = false) :
    ∀ c ∈ (replCR (replNL u)).getLast?, pyIsSpace c = false := by
  intro c hc
  rw [replNL_replCR_eq_map, List.getLast?_map] at hc
  cases hu : u.getLast? with
  | none => rw [hu] at hc; simp at hc
  | some b =>
    rw [hu] at hc
    have hb := h b (by rw [hu]; rfl)
    have hnl : b ≠ '\n' ∧ b ≠ '\r' := by
      constructor <;> rintro rfl <;> simp [pyIsSpace] at hb
    simp only [Option.map_some', Option.mem_def, Option.some.injEq] at hc
    rw [← hc]
    simp [hnl.1, hnl.2, hb]

theorem map_id_of_fix {f : Char → Char} : ∀ l : List Char, (∀ c ∈ l, f c = c) → l.map f = l
  | [], _ => rfl
  | c :: l, h => by
    rw [List.map_cons, h c (by simp), map_id_of_fix l fun c' hc' => h c' (by simp [hc'])]

theorem cleanList_head (l : List Char) :
    ∀ c ∈ (cleanList l).head?, pyIsSpace c = false :=
  collapseSpaces_head (repl_head (stripped_head l))

theorem cleanList_getLast (l : List Char) :
    ∀ c ∈ (cleanList l).getLast?, pyIsSpace c = false :=
  collapseSpaces_getLast (repl_getLast (stripped_getLast l))

theorem cleanList_no_nl {l : List Char} : ∀ c ∈ cleanList l, c ≠ '\n' ∧ c ≠ '\r' := by
  intro c hc
  have hsub : List.Sublist (cleanList l) (replCR (replNL (pyStripList l))) :=
    collapseFuel_sublist _ _
  have hmem := hsub.subset hc
  rw [replNL_replCR_eq_map] at hmem
  obtain ⟨a, -, rfl⟩ := List.mem_map.mp hmem
  by_cases h1 : a = '\n' <;> by_cases h2 : a = '\r' <;> simp_all

theorem cleanList_idem (l : List Char) : cleanList (cleanList l) = cleanList l := by
  have hstrip : pyStripList (cleanList l) = cleanList l :=
    pyStripList_noop (cleanList_head l) (cleanList_getLast l)
  have hmap : replCR (replNL (cleanList l)) = cleanList l := by
    rw [replNL_replCR_eq_map]
    refine map_id_of_fix _ fun c hc => ?_
    have := @cleanList_no_nl l c hc
    simp [this.1, this.2]
  have hdouble : hasDouble (cleanList l) = false := collapseFuel_fix _ _ le_rfl
  show collapseSpaces (replCR (replNL (pyStripList (cleanList l)))) = cleanList l
  rw [hstrip, hmap, collapseSpaces_noop hdouble]

/-- C6: the value-cleaning pass `clean_value` is idempotent: applying it
twice yields the same result as applying it once, for every input value
(in particular for null, numeric and string inputs): null is mapped to
the empty string (a fixpoint of the string pipeline), numeric values
pass through unmodified, and a cleaned string is already stripped, free
of newlines and carriage returns, and free of double spaces. -/
theorem c6_clean_idempotent (v : JVal) : clean (clean v) = clean v := by
  cases v with
  | null => rfl
  | bool b => rfl
  | num q => rfl
  | str s =>
    simp only [clean, cleanStr]
    exact congrArg JVal.str (congrArg String.mk (cleanList_idem s.data))
  | arr xs =>
    simp only [clean, cleanStr]
    exact congrArg JVal.str (congrArg String.mk (cleanList_idem _))
  | obj fs =>
    simp only [clean, cleanStr]
    exact congrArg JVal.str (congrArg String.mk (cleanList_idem _))

end Invoice

namespace Invoice

/-! ### Response normalization (app.py lines 162–167, invoice_extractor.py
lines 222–227): `response.text.strip()`, then removal of all occurrences
of the literal markers, then a final strip. -/

/-- Python `str.startswith` on character lists (the matching step of
`str.replace`). -/
def isPref : List Char → List Char → Bool
  | [], _ => true
  | _ :: _, [] => false
  | a :: as, b :: bs => a = b && isPref as bs

/-- Python `str.replace(pat, new)` for a non-empty pattern: scan left to
right, replacing non-overlapping occurrences; fuel-driven so that the
recursion is structural (`l.length` fuel always suffices, each step
consumes at least one character). -/
def replFuel (pat new : List Char) : Nat → List Char → List Char
  | _, [] => []
  | 0, l => l
  | n + 1, c :: cs =>
    if isPref pat (c :: cs) then new ++ replFuel pat new n ((c :: cs).drop pat.length)
    else c :: replFuel pat new n cs

/-- Python `l.replace(pat, new)`. -/
def pyReplace (pat new l : List Char) : List Char := replFuel pat new l.length l

/-- The two fence markers removed by the normalizer. -/
def fenceJson : List Char := "```json".data

def fencePlain : List Char := "```".data

/-- The normalization applied to the gateway's raw text before JSON
parsing: strip, remove all occurrences of the json fence marker, remove
all occurrences of the plain fence marker, strip again. -/
def normalize (l : List Char) : List Char :=
  pyStripList (pyReplace fencePlain [] (pyReplace fenceJson [] (pyStripList l)))

def normalizeStr (s : String) : String := ⟨normalize s.data⟩

/-! ### A model of Python `json.loads`, restricted to the constructs the
gateway contract exercises (objects, arrays, strings with simple
escapes, numbers, booleans, null).  Fuel-driven recursive descent;
parse failure is `none`, mirroring `json.JSONDecodeError`. -/

/-- JSON insignificant whitespace. -/
def jsonWs (c : Char) : Bool := c = ' ' || c = '\t' || c = '\n' || c = '\r'

def skipWs (l : List Char) : List Char := l.dropWhile jsonWs

/-- Single-character string escapes (the `\uXXXX` form is outside this
model and is rejected). -/
def decodeEsc : Char → Option Char
  | '"' => some '"'
  | '\\' => some '\\'
  | '/' => some '/'
  | 'b' => some (Char.ofNat 8)
  | 'f' => some (Char.ofNat 12)
  | 'n' => some '\n'
  | 'r' => some '\r'
  | 't' => some '\t'
  | _ => none

/-- Parse the body of a JSON string after the opening quote, returning
the decoded characters and the rest of the input.  Unescaped control
characters are rejected, as in strict-mode `json.loads`. -/
def parseStringBody : List Char → Option (List Char × List Char)
  | [] => none
  | '"' :: rest => some ([], rest)
  | '\\' :: rest =>
    match rest with
    | [] => none
    | e :: rest' =>
      match decodeEsc e with
      | none => none
      | some c =>
        match parseStringBody rest' with
        | none => none
        | some (s, r) => some (c :: s, r)
  | c :: rest =>
    if c.toNat < 32 then none
    else
      match parseStringBody rest with
      | none => none
      | some (s, r) => some (c :: s, r)

def digitsToNat (l : List Char) : Nat :=
  l.foldl (fun a c => a * 10 + (c.toNat - 48)) 0

/-- Parse a JSON number (sign, integer part, optional fraction, optional
exponent) into a rational. -/
def parseNumber (l : List Char) : Option (Rat × List Char) :=
  let (neg, l1) := match l with
    | '-' :: r => (true, r)
    | _ => (false, l)
  let ds := l1.takeWhile Char.isDigit
  let r1 := l1.dropWhile Char.isDigit
  if ds.isEmpty then none
  else if ds.length > 1 && ds.head? = some '0' then none
  else
    let withFrac : Option (Rat × List Char) :=
      match r1 with
      | '.' :: r2 =>
        let fs := r2.takeWhile Char.isDigit
        let r3 := r2.dropWhile Char.isDigit
        if fs.isEmpty then none
        else some ((digitsToNat ds : Rat) + (digitsToNat fs : Rat) / ((10 : Rat) ^ fs.length), r3)
      | _ => some ((digitsToNat ds : Rat), r1)
    match withFrac with
    | none => none
    | some (q, r4) =>
      let withExp : Option (Rat × List Char) :=
        match r4 with
        | 'e' :: r5 =>
          let (eneg, r6) := match r5 with
            | '-' :: r7 => (true, r7)
            | '+' :: r7 => (false, r7)
            | _ => (false, r5)
          let es := r6.takeWhile Char.isDigit
          let r8 := r6.dropWhile Char.isDigit
          if es.isEmpty then none
          else
            let e : Int := if eneg then -(digitsToNat es : Int) else (digitsToNat es : Int)
            some (q * (10 : Rat) ^ e, r8)
        | 'E' :: r5 =>
          let (eneg, r6) := match r5 with
            | '-' :: r7 => (true, r7)
            | '+' :: r7 => (false, r7)
            | _ => (false, r5)
          let es := r6.takeWhile Char.isDigit
          let r8 := r6.dropWhile Char.isDigit
          if es.isEmpty then none
          else
            let e : Int := if eneg then -(digitsToNat es : Int) else (digitsToNat es : Int)
            some (q * (10 : Rat) ^ e, r8)
        | _ => some (q, r4)
      match withExp with
      | none => none
      | some (q2, r9) => some ((if neg then -q2 else q2), r9)

/-- Parser modes: a single value, the members of an object after its
opening brace, or the items of an array after its opening bracket. -/
inductive PMode where
  | val : PMode
  | members : PMode
  | items : PMode

/-- Parser results, one per mode. -/
inductive PRes where
  | v : JVal → PRes
  | fs : List (String × JVal) → PRes
  | xs : List JVal → PRes

/-- The recursive-descent core, structurally recursive on fuel. -/
def parseCore : Nat → PMode → List Char → Option (PRes × List Char)
  | 0, _, _ => none
  | n + 1, .val, cs0 =>
    match skipWs cs0 with
    | [] => none
    | c :: rest =>
      if c = '\x7b' then
        match skipWs rest with
        | '\x7d' :: r2 => some (.v (.obj []), r2)
        | _ =>
          match parseCore n .members rest with
          | some (.fs l, r) => some (.v (.obj l), r)
          | _ => none
      else if c = '[' then
        match skipWs rest with
        | ']' :: r2 => some (.v (.arr []), r2)
        | _ =>
          match parseCore n .items rest with
          | some (.xs l, r) => some (.v (.arr l), r)
          | _ => none
      else if c = '"' then
        match parseStringBody rest with
        | some (s, r) => some (.v (.str (String.mk s)), r)
        | none => none
      else if isPref "true".data (c :: rest) then some (.v (.bool true), (c :: rest).drop 4)
      else if isPref "false".data (c :: rest) then some (.v (.bool false), (c :: rest).drop 5)
      else if isPref "null".data (c :: rest) then some (.v .null, (c :: rest).drop 4)
      else
        match parseNumber (c :: rest) with
        | some (q, r) => some (.v (.num q), r)
        | none => none
  | n + 1, .members, cs0 =>
    match skipWs cs0 with
    | '"' :: rest =>
      match parseStringBody rest with
      | none => none
      | some (k, r1) =>
        match skipWs r1 with
        | ':' :: r2 =>
          match parseCore n .val r2 with
          | some (.v v, r3) =>
            (match skipWs r3 with
             | ',' :: r4 =>
               match parseCore n .members r4 with
               | some (.fs l, r5) => some (.fs ((String.mk k, v) :: l), r5)
               | _ => none
             | '\x7d' :: r4 => some (.fs [(String.mk k, v)], r4)
             | _ => none)
          | _ => none
        | _ => none
    | _ => none
  | n + 1, .items, cs0 =>
    match parseCore n .val cs0 with
    | some (.v v, r1) =>
      (match skipWs r1 with
       | ',' :: r2 =>
         match parseCore n .items r2 with
         | some (.xs l, r3) => some (.xs (v :: l), r3)
         | _ => none
       | ']' :: r2 => some (.xs [v], r2)
       | _ => none)
    | _ => none

/-- `json.loads`: parse one value and require only whitespace to
follow. -/
def jsonLoads (s : String) : Option JVal :=
  match parseCore (2 * s.length + 4) .val s.data with
  | some (.v v, r) => if (skipWs r).isEmpty then some v else none
  | _ => none


end Invoice

namespace Invoice

/-! ### C3: fence stripping — auxiliary lemmas -/

/-- The backtick character. -/
def backtick : Char := Char.ofNat 96

theorem fenceJson_eq : fenceJson = [backtick, backtick, backtick, 'j', 's', 'o', 'n'] := rfl

theorem fencePlain_eq : fencePlain = [backtick, backtick, backtick] := rfl

theorem isPref_append (pat rest : List Char) : isPref pat (pat ++ rest) = true := by
  induction pat with
  | nil => rfl
  | cons a as ih => simp [isPref, ih]

theorem isPref_length_le {pat l : List Char} (h : isPref pat l = true) :
    pat.length ≤ l.length := by
  induction pat generalizing l with
  | nil => simp
  | cons a as ih =>
    cases l with
    | nil => simp [isPref] at h
    | cons b bs =>
      rw [isPref, Bool.and_eq_true] at h
      simpa using ih h.2

theorem replFuel_noop {pat new : List Char} :
    ∀ (f : Nat) (l : List Char), (∀ s, s <:+ l → isPref pat s = false) →
      replFuel pat new f l = l
  | 0, l, _ => by cases l <;> rfl
  | f + 1, [], _ => rfl
  | f + 1, c :: cs, h => by
    rw [replFuel, if_neg (by simp [h (c :: cs) (List.suffix_refl _)])]
    rw [replFuel_noop f cs fun s hs => h s (hs.trans (List.suffix_cons c cs))]

theorem suffix_append_cases {s p t : List Char} (h : s <:+ p ++ t) :
    s <:+ t ∨ ∃ p', p' <:+ p ∧ p' ≠ [] ∧ s = p' ++ t := by
  induction p with
  | nil => exact Or.inl (by simpa using h)
  | cons a p ih =>
    rw [List.cons_append, List.suffix_cons_iff] at h
    rcases h with rfl | h
    · exact Or.inr ⟨a :: p, List.suffix_refl _, by simp, by simp⟩
    · rcases ih h with h' | ⟨p', hp', hne, rfl⟩
      · exact Or.inl h'
      · exact Or.inr ⟨p', hp'.trans (List.suffix_cons a p), hne, rfl⟩

theorem no_fenceJson_in (p : List Char) (hp : backtick ∉ p) :
    ∀ s, s <:+ p ++ fencePlain → isPref fenceJson s = false := by
  intro s hs
  rcases suffix_append_cases hs with h | ⟨p', hp', hne, rfl⟩
  · by_contra hb
    rw [Bool.not_eq_false] at hb
    have h1 := isPref_length_le hb
    have h2 := h.length_le
    rw [fenceJson_eq] at h1
    rw [fencePlain_eq] at h2
    simp at h1 h2
    omega
  · cases p' with
    | nil => exact absurd rfl hne
    | cons c p'' =>
      have hc : c ≠ backtick := fun hcc => hp (hp'.subset (by simp [hcc]))
      have hfc : (backtick = c) = False := eq_false (Ne.symm hc)
      rw [fenceJson_eq, List.cons_append, isPref]
      simp [hfc]

theorem replFuel_succ_match (pat new rest : List Char) (n : Nat) (hpat : pat ≠ []) :
    replFuel pat new (n + 1) (pat ++ rest) =
      new ++ replFuel pat new n ((pat ++ rest).drop pat.length) := by
  rw [List.drop_left]
  cases pat with
  | nil => exact absurd rfl hpat
  | cons a as =>
    rw [List.cons_append, replFuel, if_pos]
    · rw [show (a :: as).length = as.length + 1 from rfl, List.drop_succ_cons, List.drop_left]
    · rw [← List.cons_append]; exact isPref_append _ _

theorem pyReplace_fenceJson (p : List Char) (hp : backtick ∉ p) :
    pyReplace fenceJson [] (fenceJson ++ (p ++ fencePlain)) = p ++ fencePlain := by
  unfold pyReplace
  have hl : (fenceJson ++ (p ++ fencePlain)).length = (p.length + 9) + 1 := by
    rw [fenceJson_eq, fencePlain_eq]; simp
  rw [hl, replFuel_succ_match _ _ _ _ (by rw [fenceJson_eq]; simp), List.drop_left,
    List.nil_append]
  exact replFuel_noop _ _ (no_fenceJson_in p hp)

theorem replFuel_fencePlain : ∀ p : List Char, backtick ∉ p →
    replFuel fencePlain [] ((p ++ fencePlain).length) (p ++ fencePlain) = p
  | [], _ => by
    rw [List.nil_append]
    rw [show fencePlain.length = 2 + 1 from rfl]
    rw [show (replFuel fencePlain [] (2 + 1) fencePlain) =
      replFuel fencePlain [] (2 + 1) (fencePlain ++ []) from by rw [List.append_nil]]
    rw [replFuel_succ_match _ _ _ _ (by rw [fencePlain_eq]; simp), List.drop_left]
    rfl
  | c :: p', hp => by
    have hc : c ≠ backtick := by
      intro hcc; exact hp (by simp [hcc])
    have hp' : backtick ∉ p' := fun hm => hp (by simp [hm])
    rw [List.cons_append,
      show ((c :: (p' ++ fencePlain)).length) = (p' ++ fencePlain).length + 1 from rfl,
      replFuel, if_neg]
    · rw [replFuel_fencePlain p' hp']
    · have hfc : (backtick = c) = False := eq_false (Ne.symm hc)
      rw [fencePlain_eq, isPref]
      simp [hfc]

theorem pyReplace_fencePlain (p : List Char) (hp : backtick ∉ p) :
    pyReplace fencePlain [] (p ++ fencePlain) = p :=
  replFuel_fencePlain p hp

theorem normalize_fenced (p : List Char) (hp : backtick ∉ p) :
    normalize (fenceJson ++ (p ++ fencePlain)) = pyStripList p := by
  unfold normalize
  have h0 : pyStripList (fenceJson ++ (p ++ fencePlain)) = fenceJson ++ (p ++ fencePlain) := by
    apply pyStripList_noop
    · intro c hc
      rw [fenceJson_eq, List.cons_append] at hc
      simp only [List.head?_cons, Option.mem_def, Option.some.injEq] at hc
      subst hc; rfl
    · intro c hc
      rw [← List.append_assoc, List.getLast?_append, fencePlain_eq] at hc
      simp only [List.getLast?_cons_cons, List.getLast?_singleton, Option.or_some,
        Option.mem_def, Option.some.injEq] at hc
      subst hc; rfl
  rw [h0, pyReplace_fenceJson p hp, pyReplace_fencePlain p hp]

/-- C3: the normalizer strips surrounding whitespace and removes the
literal code-fence markers bounding the payload before JSON parsing:
for every backtick-free payload the normalization of the fenced text is
exactly the stripped payload; in particular the raw text consisting of
a json code fence around the object text yields, via `json.loads`, the
object with the single field a mapped to 1. -/
theorem c3_fence_strip (p : List Char) (hp : backtick ∉ p) :
    normalize (fenceJson ++ p ++ fencePlain) = pyStripList p ∧
    jsonLoads (normalizeStr "```json\n\x7b\"a\":1\x7d\n```") = some (.obj [("a", .num 1)]) := by
  constructor
  · rw [List.append_assoc]; exact normalize_fenced p hp
  · rfl

/-- C3 witness: instantiated at the spec's concrete payload. -/
theorem c3_fence_strip_witness :
    backtick ∉ ("\n\x7b\"a\":1\x7d\n").data ∧
    (normalize (fenceJson ++ ("\n\x7b\"a\":1\x7d\n").data ++ fencePlain) =
        pyStripList ("\n\x7b\"a\":1\x7d\n").data ∧
      jsonLoads (normalizeStr "```json\n\x7b\"a\":1\x7d\n```") = some (.obj [("a", .num 1)])) :=
  ⟨by decide, c3_fence_strip _ (by decide)⟩

end Invoice

namespace Invoice

/-! ### Document loaders: extension handling, temp-file side effects -/

/-- Python `str.split(sep)` for a one-character separator. -/
def splitOnChar (sep : Char) : List Char → List (List Char)
  | [] => [[]]
  | c :: cs =>
    let r := splitOnChar sep cs
    if c = sep then [] :: r
    else
      match r with
      | [] => [[c]]
      | h :: t => (c :: h) :: t

/-- `pathlib.Path(s).name`: the final path component. -/
def pyPathName (s : String) : String := ⟨(splitOnChar '/' s.data).getLastD []⟩

/-- `pathlib.Path(s).suffix`: the extension of the final component,
including the leading dot; empty when the last dot is first in the
component or the component ends with the dot. -/
def pySuffix (s : String) : String :=
  let n := (pyPathName s).data
  match n.reverse.findIdx? (fun c => c = '.') with
  | none => ""
  | some j =>
    if j = 0 then ""
    else if j = n.length - 1 then ""
    else ⟨(n.reverse.take (j + 1)).reverse⟩

/-- `pathlib.Path(s).stem`: the final component without its suffix. -/
def pyStem (s : String) : String :=
  let n := (pyPathName s).data
  ⟨n.take (n.length - (pySuffix s).length)⟩

/-- `name.split('.')[-1]`: the segment after the last dot (the whole
name when there is no dot). -/
def lastDotSeg (s : String) : String := ⟨(splitOnChar '.' s.data).getLastD []⟩

/-- Python `str.lower()` (ASCII range, which covers the extension
alphabet). -/
def lowerStr (s : String) : String := ⟨s.data.map Char.toLower⟩

/-- The distinct failure exits of the loaders (reported as prints plus a
`None` return in the source). -/
inductive LoadErr where
  | unsupported : LoadErr
  | missingCapability : LoadErr

/-- `IMAGE_EXTENSIONS` of `invoice_extractor.py` (dotted, a set). -/
def imageExtsCLI : List String := [".jpg", ".jpeg", ".png", ".webp"]

/-- `PDF_EXTENSIONS` of `invoice_extractor.py`. -/
def pdfExtsCLI : List String := [".pdf"]

/-- `SUPPORTED_EXTENSIONS` of `invoice_extractor.py` (always the full
union; PDF support is only checked inside the PDF branch). -/
def supportedExtsCLI : List String := imageExtsCLI ++ pdfExtsCLI

/-- `load_file` of `invoice_extractor.py` (lines 129–172): lowercase the
`pathlib` suffix, reject extensions outside the allow-list, load a
single image directly, and rasterize a PDF (whose pages are an input of
the model) only when `pdf2image` is importable. -/
def loadFileCLI (pdfSupport : Bool) (path : String) (pdfPages : List Unit) :
    Except LoadErr (List Unit) :=
  let ext := lowerStr (pySuffix path)
  if ext ∈ supportedExtsCLI then
    if ext ∈ imageExtsCLI then .ok [()]
    else if pdfSupport then .ok pdfPages
    else .error .missingCapability
  else .error .unsupported

/-- `IMAGE_EXTENSIONS` of `app.py` (no dots). -/
def imageExtsWeb : List String := ["jpg", "jpeg", "png", "webp"]

/-- `PDF_EXTENSIONS` of `app.py`: empty when PDF support is missing. -/
def pdfExtsWeb (pdfSupport : Bool) : List String := if pdfSupport then ["pdf"] else []

/-- `SUPPORTED_EXTENSIONS` of `app.py`. -/
def supportedExtsWeb (pdfSupport : Bool) : List String :=
  imageExtsWeb ++ pdfExtsWeb pdfSupport

/-- `load_file` of `app.py` (lines 97–118) on an in-memory upload.  The
state component is the set of temporary files on disk.  For a PDF the
code writes a named temporary file (`delete=False`), rasterizes, then
unlinks; there is no try/finally, so when `convert_from_path` raises
(`rasterRes = none`) the exception propagates (`Except.error`) with the
temporary file still present.  `Except.ok none` is the final
`return None` for unsupported extensions. -/
def loadFileWeb (pdfSupport : Bool) (name : String) (fs : List String) (tmpName : String)
    (rasterRes : Option (List Unit)) : Except Unit (Option (List Unit)) × List String :=
  let ext := lowerStr (lastDotSeg name)
  if ext ∈ imageExtsWeb then (.ok (some [()]), fs)
  else if ext ∈ pdfExtsWeb pdfSupport then
    let fs1 := fs ++ [tmpName]
    match rasterRes with
    | none => (.error (), fs1)
    | some imgs => (.ok (some imgs), fs1.erase tmpName)
  else (.ok none, fs)

/-- C7: evaluation of the web loader at a failing rasterization: for an
in-memory PDF upload whose rasterization raises, the loader propagates
the exception while the scoped temporary file still exists — the code
does not delete the temporary file on the failing exit path, contrary
to the claimed guarantee. -/
theorem c7_temp_file_leak :
    (loadFileWeb true "doc.pdf" [] "tmp123.pdf" none).1 = .error () ∧
    "tmp123.pdf" ∈ (loadFileWeb true "doc.pdf" [] "tmp123.pdf" none).2 := by
  constructor
  · rfl
  · decide

/-- C10: extension matching is case-insensitive in both loaders: the CLI
loader rejects a file as unsupported exactly when the lowercased
`pathlib` suffix is outside its allow-list, and the web loader returns
its unsupported-format `None` exactly when the lowercased last
dot-segment of the upload name is outside its allow-list (which
contains pdf only when rasterization support is available). -/
theorem c10_extension_case_insensitive (pdfSupport : Bool) (path name : String)
    (pdfPages : List Unit) (fs : List String) (tmpName : String)
    (raster : Option (List Unit)) :
    (loadFileCLI pdfSupport path pdfPages = .error .unsupported ↔
      lowerStr (pySuffix path) ∉ supportedExtsCLI) ∧
    ((loadFileWeb pdfSupport name fs tmpName raster).1 = .ok none ↔
      lowerStr (lastDotSeg name) ∉ supportedExtsWeb pdfSupport) := by
  constructor
  · simp only [loadFileCLI]
    by_cases h1 : lowerStr (pySuffix path) ∈ supportedExtsCLI
    · rw [if_pos h1]
      by_cases h2 : lowerStr (pySuffix path) ∈ imageExtsCLI
      · simp [h2, h1]
      · rw [if_neg h2]
        cases pdfSupport <;> simp [h1]
    · simp [h1]
  · simp only [loadFileWeb]
    by_cases h1 : lowerStr (lastDotSeg name) ∈ imageExtsWeb
    · have hs : lowerStr (lastDotSeg name) ∈ supportedExtsWeb pdfSupport :=
        List.mem_append_left _ h1
      simp [h1, hs]
    · rw [if_neg h1]
      by_cases h2 : lowerStr (lastDotSeg name) ∈ pdfExtsWeb pdfSupport
      · have hs : lowerStr (lastDotSeg name) ∈ supportedExtsWeb pdfSupport :=
          List.mem_append_right _ h2
        rw [if_pos h2]
        cases raster <;> simp [hs]
      · rw [if_neg h2]
        simp [supportedExtsWeb, List.mem_append, h1, h2]

end Invoice

namespace Invoice

/-! ### Extraction pipeline (extract_invoice_data) and persistence
(save_json / append_to_csv / main loops) -/

/-- `invoice_data["_metadata"] = {...}`: requires the parsed value to be
a dict (otherwise the assignment raises `TypeError`, caught by the
generic handler — modelled as `none`); overwrites any same-named key the
model output produced. -/
def attachMeta (v : JVal) (meta : JVal) : Option JVal :=
  match v with
  | .obj fs => some (.obj (setKey fs "_metadata" meta))
  | _ => none

/-- The `_metadata` dict built by `invoice_extractor.py` (lines
230–236); the wall-clock ISO timestamp is an input. -/
def metaCLI (path : String) (pages : Nat) (nowIso : String) : JVal :=
  .obj [("arquivo_origem", .str (pyPathName path)),
        ("tipo_arquivo", .str (lowerStr (pySuffix path))),
        ("paginas", .num pages),
        ("data_extracao", .str nowIso),
        ("modelo", .str "gemini-2.5-pro")]

/-- The `_metadata` dict built by `app.py` (lines 171–177). -/
def metaWeb (name : String) (pages : Nat) (nowIso : String) : JVal :=
  .obj [("arquivo_origem", .str name),
        ("tipo_arquivo", .str ("." ++ lowerStr (lastDotSeg name))),
        ("paginas", .num pages),
        ("data_extracao", .str nowIso),
        ("modelo", .str "gemini-2.5-pro")]

/-- `extract_invoice_data` of `invoice_extractor.py` (lines 178–248).
The gateway call outcome is an input: `Except.error` models a raised
exception (caught by the generic handler), `Except.ok txt` a returned
response text.  `none` is a failed extraction (the function's `return
None` paths): missing file, loader failure, empty image list, gateway
exception, empty response text, JSON parse failure, non-dict JSON. -/
def extractCLI (pdfSupport : Bool) (path : String) (fileExists : Bool) (pdfPages : List Unit)
    (gw : Except Unit String) (nowIso : String) : Option JVal :=
  if fileExists then
    match loadFileCLI pdfSupport path pdfPages with
    | .error _ => none
    | .ok imgs =>
      if imgs.isEmpty then none
      else
        match gw with
        | .error _ => none
        | .ok txt =>
          if txt.data.isEmpty then none
          else
            match jsonLoads (normalizeStr txt) with
            | none => none
            | some v => attachMeta v (metaCLI path imgs.length nowIso)
  else none

/-- `extract_invoice_data` of `app.py` (lines 147–184), which returns a
(data, error) pair — modelled as `Except.ok (some v)` for success,
`Except.ok none` for a reported error pair, and `Except.error` for the
exception that propagates when the loader's rasterization raises
(`load_file` is called outside the try block).  The temporary-file
state is threaded through from the loader. -/
def extractWeb (pdfSupport : Bool) (name : String) (fsT : List String) (tmpName : String)
    (raster : Option (List Unit)) (gw : Except Unit String) (nowIso : String) :
    Except Unit (Option JVal) × List String :=
  match loadFileWeb pdfSupport name fsT tmpName raster with
  | (.error e, fs') => (.error e, fs')
  | (.ok none, fs') => (.ok none, fs')
  | (.ok (some imgs), fs') =>
    if imgs.isEmpty then (.ok none, fs')
    else
      match gw with
      | .error _ => (.ok none, fs')
      | .ok txt =>
        if txt.data.isEmpty then (.ok none, fs')
        else
          match jsonLoads (normalizeStr txt) with
          | none => (.ok none, fs')
          | some v => (.ok (attachMeta v (metaWeb name imgs.length nowIso)), fs')

/-- `save_json` file naming: `<stem>_<timestamp>.json`. -/
def artifactName (fileName : String) (stamp : String) : String :=
  pyStem fileName ++ "_" ++ stamp ++ ".json"

/-! ### The consolidated CSV log at the file level -/

/-- The fixed 12-column header of the consolidated log, in the order the
row dict is built in both front-ends. -/
def headerCells : List JVal :=
  [.str "data_extracao", .str "arquivo_origem", .str "tipo_arquivo", .str "razao_social",
   .str "cnpj", .str "endereco", .str "data_emissao", .str "numero_nota", .str "qtd_itens",
   .str "valor_total_nota", .str "icms", .str "iss"]

/-- The cells of one data record, in the fixed column order. -/
def cellsOf (r : Row) : List JVal :=
  [r.data_extracao, r.arquivo_origem, r.tipo_arquivo, r.razao_social, r.cnpj, r.endereco,
   r.data_emissao, r.numero_nota, .num r.qtd_itens, r.valor_total_nota, r.icms, r.iss]

/-- One `append_to_csv` call at the file level (`app.py` lines 230–236,
`invoice_extractor.py` lines 300–307): the log is opened in append mode
(created when absent, `none` models a non-existent file), the header
record is written only when the file did not exist, then the one data
record is appended. -/
def appendCsvFile (f : Option (List (List JVal))) (rec : List JVal) : List (List JVal) :=
  match f with
  | none => [headerCells, rec]
  | some ls => ls ++ [rec]

/-- Appending a sequence of records with one `append_to_csv` call
each. -/
def appendAllCsv (f : Option (List (List JVal))) (recs : List (List JVal)) :
    Option (List (List JVal)) :=
  recs.foldl (fun st rec => some (appendCsvFile st rec)) f

/-- Durable outputs of the pipeline: the individual JSON artifacts and
the consolidated log. -/
structure Store where
  artifacts : List (String × JVal)
  csv : Option (List (List JVal))

/-- One iteration of the CLI `main` loop (lines 380–392): persistence —
`save_json` then `append_to_csv` — runs only under `if invoice_data:`
(a falsy record is not persisted); a row-flattening exception aborts
after the artifact write. -/
def processFileCLI (st : Store) (pdfSupport : Bool) (path : String) (fileExists : Bool)
    (pdfPages : List Unit) (gw : Except Unit String) (nowIso nowStamp : String) : Store :=
  match extractCLI pdfSupport path fileExists pdfPages gw nowIso with
  | none => st
  | some v =>
    if isFalsy v then st
    else
      let st1 : Store := { st with artifacts := st.artifacts ++ [(artifactName path nowStamp, v)] }
      match rowCLI v with
      | none => st1
      | some r => { st1 with csv := some (appendCsvFile st1.csv (cellsOf r)) }

/-- The persistence step of the web front-end's button handler (`app.py`
lines 303–315): `save_json` and `append_to_csv` run only when
`extract_invoice_data` returned no error. -/
def processFileWeb (st : Store) (pdfSupport : Bool) (name : String) (fsT : List String)
    (tmpName : String) (raster : Option (List Unit)) (gw : Except Unit String)
    (nowIso nowStamp : String) : Store :=
  match (extractWeb pdfSupport name fsT tmpName raster gw nowIso).1 with
  | .error _ => st
  | .ok none => st
  | .ok (some v) =>
    let st1 : Store := { st with artifacts := st.artifacts ++ [(artifactName name nowStamp, v)] }
    match rowWeb v with
    | none => st1
    | some r => { st1 with csv := some (appendCsvFile st1.csv (cellsOf r)) }

/-- C4: when extraction fails at any stage (loading, gateway call, empty
response, JSON parsing), neither front-end performs any persistence:
the store — individual JSON artifacts and the consolidated log — is
unchanged; both outputs are written only on full success. -/
theorem c4_no_persistence_on_failure (st : Store) (pdfSupport : Bool) (path name : String)
    (fileExists : Bool) (pdfPages : List Unit) (fsT : List String) (tmpName : String)
    (raster : Option (List Unit)) (gw gw' : Except Unit String) (nowIso nowStamp : String) :
    (extractCLI pdfSupport path fileExists pdfPages gw nowIso = none →
      processFileCLI st pdfSupport path fileExists pdfPages gw nowIso nowStamp = st) ∧
    ((∀ v, (extractWeb pdfSupport name fsT tmpName raster gw' nowIso).1 ≠ .ok (some v)) →
      processFileWeb st pdfSupport name fsT tmpName raster gw' nowIso nowStamp = st) := by
  constructor
  · intro h
    unfold processFileCLI
    rw [h]
  · intro h
    unfold processFileWeb
    split
    · rfl
    · rfl
    · next v heq => exact absurd heq (h v)

/-- C4 witness: a gateway failure on each front-end leaves an empty
store empty. -/
theorem c4_no_persistence_on_failure_witness :
    processFileCLI ⟨[], none⟩ true "nota.jpg" true [] (.error ()) "T" "S" = ⟨[], none⟩ ∧
    processFileWeb ⟨[], none⟩ true "nota.jpg" [] "tmp" none (.error ()) "T" "S" = ⟨[], none⟩ :=
  ⟨(c4_no_persistence_on_failure ⟨[], none⟩ true "nota.jpg" "nota.jpg" true [] [] "tmp"
      none (.error ()) (.error ()) "T" "S").1 rfl,
   (c4_no_persistence_on_failure ⟨[], none⟩ true "nota.jpg" "nota.jpg" true [] [] "tmp"
      none (.error ()) (.error ()) "T" "S").2 (fun v h => by exact nomatch h)⟩

theorem lookupKey_setKey (fs : List (String × JVal)) (k : String) (v : JVal) :
    lookupKey (setKey fs k v) k = some v := by
  induction fs with
  | nil => simp [setKey, lookupKey]
  | cons p fs ih =>
    obtain ⟨k', v'⟩ := p
    by_cases h : k' = k
    · simp [setKey, h, lookupKey]
    · simp [setKey, h, lookupKey, ih]

/-- C9 counterexample: the gateway response consisting of an empty JSON
object parses, and the resulting record contains only the attached
`_metadata` — the issuer field (and every other schema field) is
omitted, not filled with null. -/
theorem c9_missing_field_counterexample :
    extractCLI true "nota.jpg" true [] (.ok "\x7b\x7d") "2024-01-01T00:00:00" =
      some (.obj [("_metadata", metaCLI "nota.jpg" 1 "2024-01-01T00:00:00")]) ∧
    lookupKey [("_metadata", metaCLI "nota.jpg" 1 "2024-01-01T00:00:00")] "emitente" = none :=
  ⟨rfl, rfl⟩

/-- C9 amended: every record the normalizer produces is a JSON object
that carries the `_metadata` field (attached server-side, overwriting
any same-named key from the model output); the other top-level fields
are present only when the gateway's JSON supplies them. -/
theorem c9_metadata_always_attached (pdfSupport : Bool) (path : String) (fileExists : Bool)
    (pdfPages : List Unit) (gw : Except Unit String) (nowIso : String) (v : JVal)
    (h : extractCLI pdfSupport path fileExists pdfPages gw nowIso = some v) :
    ∃ fs, v = .obj fs ∧ ∃ m, lookupKey fs "_metadata" = some m := by
  unfold extractCLI at h
  repeat' split at h
  all_goals first
    | exact absurd h (by simp)
    | skip
  next w hw =>
    unfold attachMeta at h
    split at h
    · next gs =>
      have hv := (Option.some.inj h).symm
      exact ⟨_, hv, _, lookupKey_setKey gs _ _⟩
    · exact absurd h (by simp)

/-- C9 amended witness: the counterexample input yields a record whose
`_metadata` field is present. -/
theorem c9_metadata_always_attached_witness :
    ∃ fs, (.obj [("_metadata", metaCLI "nota.jpg" 1 "2024-01-01T00:00:00")] : JVal) = .obj fs ∧
      ∃ m, lookupKey fs "_metadata" = some m :=
  c9_metadata_always_attached true "nota.jpg" true [] (.ok "\x7b\x7d") "2024-01-01T00:00:00"
    _ rfl

/-- C5: starting from a non-existent log, appending a non-empty sequence
of records yields exactly one header record followed by the data
records in order; appending to an existing log only appends (existing
records are never modified or deleted, and no further header is
written); header and data records both have the 12 columns in the fixed
order. -/
theorem c5_append_only_log :
    (∀ (rec : List JVal) (recs : List (List JVal)),
      appendAllCsv none (rec :: recs) = some (headerCells :: rec :: recs)) ∧
    (∀ (ls recs : List (List JVal)),
      appendAllCsv (some ls) recs = some (ls ++ recs)) ∧
    headerCells.length = 12 ∧ (∀ r : Row, (cellsOf r).length = 12) := by
  have key : ∀ (recs : List (List JVal)) (ls : List (List JVal)),
      appendAllCsv (some ls) recs = some (ls ++ recs) := by
    intro recs
    induction recs with
    | nil => intro ls; simp [appendAllCsv]
    | cons r recs ih =>
      intro ls
      show appendAllCsv (some (appendCsvFile (some ls) r)) recs = _
      rw [show appendCsvFile (some ls) r = ls ++ [r] from rfl, ih]
      simp
  refine ⟨?_, fun ls recs => key recs ls, rfl, fun r => rfl⟩
  · intro rec recs
    show appendAllCsv (some (appendCsvFile none rec)) recs = _
    rw [show appendCsvFile none rec = [headerCells, rec] from rfl, key]
    rfl

end Invoice

namespace Invoice

/-! ### C8: comparing the two front-ends' flattening -/

/-- An InvoiceRecord that separates the two flattening implementations:
its issue date contains an embedded newline and its iss tax is null. -/
def exC8 : JVal :=
  .obj [("data_emissao", .str "01/01\n2024"),
        ("impostos", .obj [("icms", .num 1), ("iss", .null)]),
        ("itens", .arr [])]

/-- C8 counterexample: for `exC8` the CLI row keeps the raw newline and
the raw null while the web row cleans them, so the two front-ends'
rows differ — the claimed field-for-field equality fails (the CLI's
`append_to_csv` applies no value-cleaning pass at all). -/
theorem c8_front_ends_differ :
    (rowCLI exC8).map Row.data_emissao = some (.str "01/01\n2024") ∧
    (rowWeb exC8).map Row.data_emissao = some (.str "01/01 2024") ∧
    (rowCLI exC8).map Row.iss = some .null ∧
    (rowWeb exC8).map Row.iss = some (.str "") ∧
    rowCLI exC8 ≠ rowWeb exC8 := by
  refine ⟨rfl, rfl, rfl, rfl, fun h => ?_⟩
  have h2 : (rowCLI exC8).map Row.iss = (rowWeb exC8).map Row.iss := by rw [h]
  rw [show (rowCLI exC8).map Row.iss = some JVal.null from rfl,
    show (rowWeb exC8).map Row.iss = some (.str "") from rfl] at h2
  exact JVal.noConfusion (Option.some.inj h2)

/-- A flattened leaf agrees between the two front-ends when the lookup
either misses (both sides use the empty-string default) or finds a
scalar fixed by the cleaning pass: a number, a boolean, or an
already-clean string.  A null, container, or dirty-string value
separates the front-ends. -/
def cellOk : Option JVal → Bool
  | none => true
  | some .null => false
  | some (.str s) => cleanStr s == s
  | some (.num _) => true
  | some (.bool _) => true
  | some (.arr _) => false
  | some (.obj _) => false

/-- Condition on a nested container fetched with `.get(k, {}) or {}` by
the CLI: absent or falsy (both sides then use defaults throughout), or
a dict whose listed keys all satisfy `cellOk`. -/
def contOk (o : Option JVal) (ks : List String) : Bool :=
  match o with
  | none => true
  | some (.obj fs) => ks.all fun k => cellOk (lookupKey fs k)
  | some v => isFalsy v

/-- Condition on `_metadata`, which the CLI fetches without the `or {}`
guard: absent, or a dict whose listed keys all satisfy `cellOk` (a
present non-dict value makes the CLI raise). -/
def metaOk (o : Option JVal) (ks : List String) : Bool :=
  match o with
  | none => true
  | some (.obj fs) => ks.all fun k => cellOk (lookupKey fs k)
  | some _ => false

theorem clean_str_empty : clean (.str "") = .str "" := rfl

theorem cellOk_eq {fs : List (String × JVal)} {k : String}
    (h : cellOk (lookupKey fs k) = true) :
    pyGetOr fs k (.str "") = clean (safeGet (.obj fs) [k] (.str "")) := by
  cases hl : lookupKey fs k with
  | none => simp [pyGetOr, hl, safeGet, clean_str_empty]
  | some w =>
    rw [hl] at h
    cases w with
    | null => simp [cellOk] at h
    | str s =>
      have hs : cleanStr s = s := by simpa [cellOk] using h
      simp [pyGetOr, hl, safeGet, clean, hs]
    | num q => simp [pyGetOr, hl, safeGet, clean]
    | bool b => simp [pyGetOr, hl, safeGet, clean]
    | arr xs => simp [cellOk] at h
    | obj gs => simp [cellOk] at h

theorem contOk_eq {ds : List (String × JVal)} {c : String} {ks : List String}
    (h : contOk (lookupKey ds c) ks = true) :
    ∃ em, asObj (pyOr (pyGetOr ds c (.obj [])) (.obj [])) = some em ∧
      ∀ k ∈ ks, pyGetOr em k (.str "") = clean (safeGet (.obj ds) [c, k] (.str "")) := by
  cases hl : lookupKey ds c with
  | none =>
    refine ⟨[], by simp [pyGetOr, hl, pyOr, isFalsy, asObj], fun k _ => ?_⟩
    simp [pyGetOr, lookupKey, safeGet, hl, clean_str_empty]
  | some v =>
    rw [hl] at h
    cases v with
    | obj fs =>
      refine ⟨fs, ?_, fun k hk => ?_⟩
      · by_cases hfs : fs.isEmpty = true
        · have hfse : fs = [] := by
            cases fs with
            | nil => rfl
            | cons a t => simp at hfs
          subst hfse
          simp [pyGetOr, hl, pyOr, isFalsy, asObj]
        · simp [pyGetOr, hl, pyOr, isFalsy, hfs, asObj]
      · have hcell := List.all_eq_true.mp h k hk
        have hpath : safeGet (.obj ds) [c, k] (.str "") = safeGet (.obj fs) [k] (.str "") := by
          simp [safeGet, hl]
        rw [hpath]
        exact cellOk_eq hcell
    | null =>
      refine ⟨[], by simp [pyGetOr, hl, pyOr, isFalsy, asObj], fun k _ => ?_⟩
      simp [pyGetOr, lookupKey, safeGet, hl, clean_str_empty]
    | str s =>
      have hfal : isFalsy (.str s) = true := h
      refine ⟨[], by simp [pyGetOr, hl, pyOr, hfal, asObj], fun k _ => ?_⟩
      simp [pyGetOr, lookupKey, safeGet, hl, clean_str_empty]
    | num q =>
      have hfal : isFalsy (.num q) = true := h
      refine ⟨[], by simp [pyGetOr, hl, pyOr, hfal, asObj], fun k _ => ?_⟩
      simp [pyGetOr, lookupKey, safeGet, hl, clean_str_empty]
    | bool b =>
      have hfal : isFalsy (.bool b) = true := h
      refine ⟨[], by simp [pyGetOr, hl, pyOr, hfal, asObj], fun k _ => ?_⟩
      simp [pyGetOr, lookupKey, safeGet, hl, clean_str_empty]
    | arr xs =>
      have hfal : isFalsy (.arr xs) = true := h
      refine ⟨[], by simp [pyGetOr, hl, pyOr, hfal, asObj], fun k _ => ?_⟩
      simp [pyGetOr, lookupKey, safeGet, hl, clean_str_empty]

theorem metaOk_eq {ds : List (String × JVal)} {ks : List String}
    (h : metaOk (lookupKey ds "_metadata") ks = true) :
    ∃ md, asObj (pyGetOr ds "_metadata" (.obj [])) = some md ∧
      ∀ k ∈ ks, pyGetOr md k (.str "") =
        clean (safeGet (pyOr (pyGetOr ds "_metadata" (.obj [])) (.obj [])) [k] (.str "")) := by
  cases hl : lookupKey ds "_metadata" with
  | none =>
    refine ⟨[], by simp [pyGetOr, hl, asObj], fun k _ => ?_⟩
    simp [pyGetOr, lookupKey, hl, pyOr, isFalsy, safeGet, clean_str_empty]
  | some v =>
    rw [hl] at h
    cases v with
    | obj fs =>
      refine ⟨fs, by simp [pyGetOr, hl, asObj], fun k hk => ?_⟩
      have hcell := List.all_eq_true.mp h k hk
      have hpy : pyOr (pyGetOr ds "_metadata" (.obj [])) (.obj []) = .obj fs := by
        by_cases hfs : fs.isEmpty = true
        · have hfse : fs = [] := by
            cases fs with
            | nil => rfl
            | cons a t => simp at hfs
          subst hfse
          simp [pyGetOr, hl, pyOr, isFalsy]
        · simp [pyGetOr, hl, pyOr, isFalsy, hfs]
      rw [hpy]
      exact cellOk_eq hcell
    | null => simp [metaOk] at h
    | str s => simp [metaOk] at h
    | num q => simp [metaOk] at h
    | bool b => simp [metaOk] at h
    | arr xs => simp [metaOk] at h

/-- C8 amended: the two front-ends build rows with the same 12 fields in
the same order and always agree on the item count; the rows coincide
field for field whenever every flattened leaf is absent or a clean
scalar (no nulls, containers, or strings the cleaning pass would
change) and `_metadata` is absent or such a dict — the difference being
that the web front-end applies the value-cleaning pass to every string
field while the CLI front-end applies none. -/
theorem c8_rows_agree (ds : List (String × JVal))
    (hm : metaOk (lookupKey ds "_metadata")
      ["data_extracao", "arquivo_origem", "tipo_arquivo"] = true)
    (he : contOk (lookupKey ds "emitente") ["razao_social", "cnpj", "endereco"] = true)
    (hi : contOk (lookupKey ds "impostos") ["icms", "iss"] = true)
    (h1 : cellOk (lookupKey ds "data_emissao") = true)
    (h2 : cellOk (lookupKey ds "numero_nota") = true)
    (h3 : cellOk (lookupKey ds "valor_total_nota") = true) :
    rowCLI (.obj ds) = rowWeb (.obj ds) := by
  obtain ⟨em, hem, hemc⟩ := contOk_eq he
  obtain ⟨im, him, himc⟩ := contOk_eq hi
  obtain ⟨md, hmd, hmdc⟩ := metaOk_eq hm
  show rowCLIFields ds = rowWebFields ds
  unfold rowCLIFields rowWebFields
  rw [hem, him, hmd]
  simp only [Option.some_bind]
  cases hq : pyLen (pyOr (pyGetOr ds "itens" (.arr [])) (.arr [])) with
  | none => simp
  | some qtd =>
    simp only [Option.some_bind, Option.some.injEq, Row.mk.injEq]
    exact ⟨hmdc _ (by simp), hmdc _ (by simp), hmdc _ (by simp),
      hemc _ (by simp), hemc _ (by simp), hemc _ (by simp),
      cellOk_eq h1, cellOk_eq h2, trivial, cellOk_eq h3,
      himc _ (by simp), himc _ (by simp)⟩

/-- The end-to-end scenario record with the iss tax resolved (a clean
scalar in every leaf). -/
def exC8good : List (String × JVal) :=
  [("emitente", .obj [("razao_social", .str "ACME"), ("cnpj", .str "00.000.000/0001-00"),
      ("endereco", .str "Rua X")]),
   ("data_emissao", .str "01/01/2024"), ("numero_nota", .str "123"),
   ("itens", .arr [.obj [("descricao", .str "Item A"), ("quantidade", .num 2),
     ("valor_unitario", .num 5), ("valor_total", .num 10)]]),
   ("valor_total_nota", .num 10),
   ("impostos", .obj [("icms", .num 1), ("iss", .num 2)])]

/-- C8 amended witness: a concrete record with clean scalar leaves on
which both front-ends produce identical rows. -/
theorem c8_rows_agree_witness :
    (metaOk (lookupKey exC8good "_metadata")
        ["data_extracao", "arquivo_origem", "tipo_arquivo"] = true ∧
      contOk (lookupKey exC8good "emitente") ["razao_social", "cnpj", "endereco"] = true ∧
      contOk (lookupKey exC8good "impostos") ["icms", "iss"] = true ∧
      cellOk (lookupKey exC8good "data_emissao") = true ∧
      cellOk (lookupKey exC8good "numero_nota") = true ∧
      cellOk (lookupKey exC8good "valor_total_nota") = true) ∧
    rowCLI (.obj exC8good) = rowWeb (.obj exC8good) :=
  ⟨⟨rfl, rfl, rfl, rfl, rfl, rfl⟩,
    c8_rows_agree exC8good rfl rfl rfl rfl rfl rfl⟩

end Invoice
